import Mathlib

/-!
Verification of the receipt-printer admission pipeline and image encoder.

Shallow embedding of the JavaScript sources:
* `src/email-handler.js` (two module variants: variant 1 with
  `RATE_LIMIT_PER_DAY = 3` and a length check in `moderateContent`;
  variant 2 with `RATE_LIMIT_PER_DAY = 5`, no length check, and
  `moderateImage`), and
* `src/image-processor.js` (`ditherImage`, `convertToBitmap`,
  `processImageForPrinting`), and
* the `/webhook/email` handler of `src/server.js`.

Conventions: JS strings are Lean `String` (lengths are code-unit counts,
`toLowerCase` is `Char.toLower` on the character list, `includes` is the
substring test `jsIncludes`); the in-memory `Map` used by the rate limiter
is an association list; JS numbers are modelled exactly: integer-valued
quantities as `ℕ`, the fractional grayscale/error arithmetic of the
dithering pass as `ℚ`; `Uint8ClampedArray` stores clamp to `[0, 255]` and
round ties to even (`clampStore`).
-/

namespace ReceiptPrinter

/-- Verdict record `{allowed, reason}` returned by the moderation and
validation functions (`reason` is absent on success). -/
structure Verdict where
  allowed : Bool
  reason : Option String
deriving Repr, DecidableEq

/-- `RATE_LIMIT_PER_DAY` of email-handler variant 1. -/
def RATE_LIMIT_PER_DAY : ℕ := 3

/-- `RATE_LIMIT_PER_DAY` of email-handler variant 2. -/
def RATE_LIMIT_PER_DAY_v2 : ℕ := 5

/-- `MAX_TEXT_LENGTH` (characters). -/
def MAX_TEXT_LENGTH : ℕ := 500

/-- `MAX_IMAGES_PER_EMAIL`. -/
def MAX_IMAGES_PER_EMAIL : ℕ := 2

/-- `MAX_IMAGE_SIZE_MB`. -/
def MAX_IMAGE_SIZE_MB : ℕ := 5

/-- `MAX_TOTAL_EMAIL_SIZE_MB`. -/
def MAX_TOTAL_EMAIL_SIZE_MB : ℕ := 10

/-- `BLOCKED_KEYWORDS` of email-handler (identical in both variants). -/
def BLOCKED_KEYWORDS : List String :=
  ["kill", "death", "die", "murder", "suicide", "hate", "racist", "slur"]

/-- JS `hay.includes(needle)`: `needle` occurs contiguously in `hay`. -/
def jsIncludes (hay needle : List Char) : Bool :=
  if needle.isPrefixOf hay then true
  else
    match hay with
    | [] => false
    | _ :: t => jsIncludes t needle

/-- The `for (const keyword of BLOCKED_KEYWORDS)` loop of `moderateContent`:
`true` iff some keyword (lower-cased) occurs in the lower-cased text. -/
def scanKeywords (lowerText : List Char) : List String → Bool
  | [] => false
  | k :: rest =>
    if jsIncludes lowerText (k.data.map Char.toLower) then true
    else scanKeywords lowerText rest

/-- `moderateContent` of email-handler variant 1 (lines 56-78): keyword
check first, then the length check. -/
def moderateContent (text : String) : Verdict :=
  let lowerText := text.data.map Char.toLower
  if scanKeywords lowerText BLOCKED_KEYWORDS then
    ⟨false, some "Content contains inappropriate language"⟩
  else if text.length > MAX_TEXT_LENGTH then
    ⟨false, some ("Message too long (max " ++ toString MAX_TEXT_LENGTH ++ " characters)")⟩
  else ⟨true, none⟩

/-- `moderateContent` of email-handler variant 2 (lines 215-229): keyword
check only; there is no length check in this variant. -/
def moderateContent_v2 (text : String) : Verdict :=
  let lowerText := text.data.map Char.toLower
  if scanKeywords lowerText BLOCKED_KEYWORDS then
    ⟨false, some "Content contains inappropriate language"⟩
  else ⟨true, none⟩

/-- An email attachment: declared content type (possibly absent), declared
byte size, and an abstract identifier standing for the raw bytes. -/
structure Attachment where
  content_type : Option String
  size : ℕ
  content : ℕ
deriving Repr, DecidableEq

/-- `a.content_type?.startsWith('image/')` (an absent content type is
falsy under JS optional chaining). -/
def isImageAttachment (a : Attachment) : Bool :=
  match a.content_type with
  | some ct => ct.startsWith "image/"
  | none => false

/-- `img.size / (1024 * 1024)`, exact rational (division by `2^20` is
exact in doubles for integer sizes, so this matches JS). -/
def sizeInMB (a : Attachment) : ℚ := (a.size : ℚ) / (1024 * 1024)

/-- The `for (const img of imageAttachments)` loop of `validateImages`:
returns the rejection verdict of the first over-size image, if any. -/
def firstOversize : List Attachment → Option Verdict
  | [] => none
  | a :: rest =>
    if sizeInMB a > (MAX_IMAGE_SIZE_MB : ℚ) then
      some ⟨false, some ("Image too large (max " ++ toString MAX_IMAGE_SIZE_MB ++ "MB per image)")⟩
    else firstOversize rest

/-- `validateImages(attachments)` of email-handler (identical in both
variants). `none` models a missing (`undefined`) argument. -/
def validateImages (attachments : Option (List Attachment)) : Verdict :=
  match attachments with
  | none => ⟨true, none⟩
  | some atts =>
    if atts.length = 0 then ⟨true, none⟩
    else
      let imageAttachments := atts.filter isImageAttachment
      if imageAttachments.length > MAX_IMAGES_PER_EMAIL then
        ⟨false, some ("Too many images (max " ++ toString MAX_IMAGES_PER_EMAIL ++ " per email)")⟩
      else
        match firstOversize imageAttachments with
        | some v => v
        | none =>
          let totalSize : ℕ := imageAttachments.foldl (fun sum a => sum + a.size) 0
          if (totalSize : ℚ) / (1024 * 1024) > (MAX_TOTAL_EMAIL_SIZE_MB : ℚ) then
            ⟨false, some ("Total email too large (max " ++ toString MAX_TOTAL_EMAIL_SIZE_MB ++ "MB)")⟩
          else ⟨true, none⟩

/-- Attachment validation as the claim words it: empty or absent list is
allowed; only image attachments count; the three rejection conditions are
evaluated in the fixed order count, then per-item size, then total size,
returning the first failing reason. -/
def specValidateImages (attachments : Option (List Attachment)) : Verdict :=
  match attachments with
  | none => ⟨true, none⟩
  | some atts =>
    let imgs := atts.filter isImageAttachment
    if imgs.length > MAX_IMAGES_PER_EMAIL then
      ⟨false, some ("Too many images (max " ++ toString MAX_IMAGES_PER_EMAIL ++ " per email)")⟩
    else if imgs.any (fun a => sizeInMB a > (MAX_IMAGE_SIZE_MB : ℚ)) then
      ⟨false, some ("Image too large (max " ++ toString MAX_IMAGE_SIZE_MB ++ "MB per image)")⟩
    else if ((imgs.foldl (fun sum a => sum + a.size) 0 : ℕ) : ℚ) / (1024 * 1024) > (MAX_TOTAL_EMAIL_SIZE_MB : ℚ) then
      ⟨false, some ("Total email too large (max " ++ toString MAX_TOTAL_EMAIL_SIZE_MB ++ "MB)")⟩
    else ⟨true, none⟩

/-- The in-memory `rateLimits` map: an association list from key to count. -/
abbrev RateTable := List (String × ℕ)

/-- `rateLimits.get(key) || 0`. -/
def lookupTbl : RateTable → String → ℕ
  | [], _ => 0
  | (k, v) :: rest, key => if k = key then v else lookupTbl rest key

/-- `rateLimits.set(key, v)`: replaces an existing binding, else appends. -/
def setTbl : RateTable → String → ℕ → RateTable
  | [], key, v => [(key, v)]
  | (k, w) :: rest, key, v =>
    if k = key then (key, v) :: rest else (k, w) :: setTbl rest key v

/-- `getRateLimitKey(email)`; the wall-clock date string is passed
explicitly (`today`). -/
def getRateLimitKey (email today : String) : String := email ++ ":" ++ today

/-- `checkRateLimit(senderEmail)`; the module-level `RATE_LIMIT_PER_DAY`
(3 in variant 1, 5 in variant 2) and the current table and date are
explicit parameters.  Returns `(allowed, remaining)`. -/
def checkRateLimit (limit : ℕ) (tbl : RateTable) (senderEmail today : String) : Bool × ℕ :=
  let count := lookupTbl tbl (getRateLimitKey senderEmail today)
  if count ≥ limit then (false, 0) else (true, limit - count)

/-- `incrementRateLimit(senderEmail)`. -/
def incrementRateLimit (tbl : RateTable) (senderEmail today : String) : RateTable :=
  let key := getRateLimitKey senderEmail today
  setTbl tbl key (lookupTbl tbl key + 1)

/-- `cleanupOldRateLimits()`: deletes every record whose key contains
yesterday's date string (the second disjunct of the source repeats the
test with a leading colon). -/
def cleanupOldRateLimits (tbl : RateTable) (yesterday : String) : RateTable :=
  tbl.filter fun kv =>
    !(jsIncludes kv.1.data yesterday.data || jsIncludes kv.1.data ((":" ++ yesterday).data))

/-- `n` consecutive calls of `checkRateLimit` (which never mutates the
table); the list collects the `allowed` results in order. -/
def runChecks (limit : ℕ) (tbl : RateTable) (senderEmail today : String) : ℕ → List Bool
  | 0 => []
  | n + 1 =>
    (checkRateLimit limit tbl senderEmail today).1 ::
      runChecks limit tbl senderEmail today n

/-- `n` print attempts as the pipeline performs them: each call checks the
rate limit and, exactly when allowed, increments the counter. -/
def runPrintAttempts (limit : ℕ) (senderEmail today : String) : RateTable → ℕ → List Bool
  | _, 0 => []
  | tbl, n + 1 =>
    if (checkRateLimit limit tbl senderEmail today).1 then
      true :: runPrintAttempts limit senderEmail today (incrementRateLimit tbl senderEmail today) n
    else
      false :: runPrintAttempts limit senderEmail today tbl n

/-- A raw rate-limiter operation: a `checkRateLimit` call (which never
mutates the table) or an `incrementRateLimit` call. -/
inductive RateOp where
  | checkOp (email today : String)
  | incOp (email today : String)

/-- Apply one raw operation to the table. -/
def applyRateOp (tbl : RateTable) : RateOp → RateTable
  | .checkOp _ _ => tbl
  | .incOp e d => incrementRateLimit tbl e d

/-- Apply a sequence of raw operations. -/
def applyRateOps (tbl : RateTable) (ops : List RateOp) : RateTable :=
  ops.foldl applyRateOp tbl

/-- An operation under the pipeline's discipline: a bare check, or a print
whose increment happens only when the immediately preceding check allowed. -/
inductive GuardedOp where
  | gCheck (email today : String)
  | gPrint (email today : String)

/-- Apply one disciplined operation to the table. -/
def applyGuardedOp (limit : ℕ) (tbl : RateTable) : GuardedOp → RateTable
  | .gCheck _ _ => tbl
  | .gPrint e d =>
    if (checkRateLimit limit tbl e d).1 then incrementRateLimit tbl e d else tbl

/-- Apply a sequence of disciplined operations. -/
def applyGuardedOps (limit : ℕ) (tbl : RateTable) (ops : List GuardedOp) : RateTable :=
  ops.foldl (applyGuardedOp limit) tbl

/-- Terminal outcome of one `/webhook/email` request, as surfaced by the
HTTP response.  `printedResponse b` is the `{printed: true}` response;
`b` records whether the device callback actually printed (the callback
only logs when `device.open` reports an error). -/
inductive WebhookOutcome where
  | notEmailEvent
  | rateLimited
  | contentFiltered
  | imagesTooLarge
  | imageContentFiltered
  | printedResponse (physicallyPrinted : Bool)
  | printFailedResponse
deriving Repr, DecidableEq

/-- The per-attachment loop of the webhook: the external `moderateImage`
verdict of the first blocked image attachment, if any. -/
def firstBlockedImage (imageVerdict : ℕ → Verdict) : List Attachment → Option Verdict
  | [] => none
  | a :: rest =>
    if isImageAttachment a then
      let v := imageVerdict a.content
      if v.allowed then firstBlockedImage imageVerdict rest else some v
    else firstBlockedImage imageVerdict rest

/-- Inputs of one `/webhook/email` request, external collaborators
included: `fetchedAttachments = none` models `resend.emails.get` throwing
(caught; the pipeline proceeds without images); `imageVerdict` is the
external per-image moderation primitive; `deviceSyncThrow` models the
printer device constructor or `device.open` call throwing synchronously
(routed to the `catch` block); `deviceOpenError` models `device.open`
reporting an error to its asynchronous callback. -/
structure WebhookEnv where
  eventIsEmailReceived : Bool
  sender : String
  today : String
  message : String
  resendConfigured : Bool
  emailId : Option ℕ
  fetchedAttachments : Option (List Attachment)
  imageVerdict : ℕ → Verdict
  deviceSyncThrow : Bool
  deviceOpenError : Bool

/-- The `/webhook/email` handler of `src/server.js` (signature check
elided; image decoding and notification sends are assumed not to throw).
Returns the outcome, whether `incrementRateLimit` was called, and the
resulting table.  Note the source calls `incrementRateLimit` directly
after `device.open(...)` returns, outside the open callback, so the call
happens whether or not the callback received an error. -/
def webhookEmail (env : WebhookEnv) (tbl : RateTable) : WebhookOutcome × Bool × RateTable :=
  if !env.eventIsEmailReceived then (.notEmailEvent, false, tbl)
  else
    let rateCheck := checkRateLimit RATE_LIMIT_PER_DAY_v2 tbl env.sender env.today
    if !rateCheck.1 then (.rateLimited, false, tbl)
    else
      let moderation := moderateContent_v2 env.message
      if !moderation.allowed then (.contentFiltered, false, tbl)
      else
        let attachmentOutcome : Option WebhookOutcome :=
          if env.resendConfigured && env.emailId.isSome then
            match env.fetchedAttachments with
            | none => none
            | some atts =>
              if atts.length != 0 then
                if !(validateImages (some atts)).allowed then some .imagesTooLarge
                else
                  match firstBlockedImage env.imageVerdict atts with
                  | some _ => some .imageContentFiltered
                  | none => none
              else none
          else none
        match attachmentOutcome with
        | some o => (o, false, tbl)
        | none =>
          if env.deviceSyncThrow then (.printFailedResponse, false, tbl)
          else
            (.printedResponse (!env.deviceOpenError), true,
              incrementRateLimit tbl env.sender env.today)

/-- `Uint8ClampedArray` store conversion: clamp to `[0, 255]`, then round
to the nearest integer, ties to even. -/
def roundHalfEven (q : ℚ) : ℤ :=
  if q - ⌊q⌋ < 1/2 then ⌊q⌋
  else if (1/2 : ℚ) < q - ⌊q⌋ then ⌊q⌋ + 1
  else if ⌊q⌋ % 2 = 0 then ⌊q⌋ else ⌊q⌋ + 1

/-- Value actually stored by `pixels[j] = q` on a `Uint8ClampedArray`. -/
def clampStore (q : ℚ) : ℕ :=
  if q ≤ 0 then 0
  else if 255 ≤ q then 255
  else (roundHalfEven q).toNat

/-- `pixels[j] += e` on the clamped working buffer. -/
def addErr (buf : List ℕ) (j : ℕ) (e : ℚ) : List ℕ :=
  buf.set j (clampStore ((buf.getD j 0 : ℚ) + e))

/-- Body of the doubly nested loop of `ditherImage` at pixel `(x, y)`,
transcribed from `src/image-processor.js` lines 9-48. -/
def ditherStep (w h : ℕ) (buf : List ℕ) (x y : ℕ) : List ℕ :=
  let idx := (y * w + x) * 4
  let oldPixel : ℚ :=
    ((buf.getD idx 0 : ℚ) + (buf.getD (idx + 1) 0 : ℚ) + (buf.getD (idx + 2) 0 : ℚ)) / 3
  let newPixel : ℕ := if oldPixel < 128 then 0 else 255
  let buf1 := ((buf.set idx newPixel).set (idx + 1) newPixel).set (idx + 2) newPixel
  let error : ℚ := oldPixel - (newPixel : ℚ)
  let buf2 :=
    if x + 1 < w then
      let rightIdx := (y * w + (x + 1)) * 4
      addErr (addErr (addErr buf1 rightIdx (error * 7 / 16)) (rightIdx + 1) (error * 7 / 16))
        (rightIdx + 2) (error * 7 / 16)
    else buf1
  if y + 1 < h then
    let buf3 :=
      if 0 < x then
        let bottomLeftIdx := ((y + 1) * w + (x - 1)) * 4
        addErr (addErr (addErr buf2 bottomLeftIdx (error * 3 / 16)) (bottomLeftIdx + 1) (error * 3 / 16))
          (bottomLeftIdx + 2) (error * 3 / 16)
      else buf2
    let bottomIdx := ((y + 1) * w + x) * 4
    let buf4 :=
      addErr (addErr (addErr buf3 bottomIdx (error * 5 / 16)) (bottomIdx + 1) (error * 5 / 16))
        (bottomIdx + 2) (error * 5 / 16)
    if x + 1 < w then
      let bottomRightIdx := ((y + 1) * w + (x + 1)) * 4
      addErr (addErr (addErr buf4 bottomRightIdx (error * 1 / 16)) (bottomRightIdx + 1) (error * 1 / 16))
        (bottomRightIdx + 2) (error * 1 / 16)
    else buf4
  else buf2

/-- `ditherImage(imageData, width, height)`: the RGBA working buffer is
copied and mutated through a `for y { for x { ... } }` raster pass. -/
def ditherImage (imageData : List ℕ) (w h : ℕ) : List ℕ :=
  (List.range h).foldl
    (fun buf y => (List.range w).foldl (fun buf x => ditherStep w h buf x y) buf)
    imageData

/-- Offset of pixel `(x, y)` in the RGBA buffer. -/
def pixelIndex (w x y : ℕ) : ℕ := (y * w + x) * 4

/-- Add `e` to the three color channels of pixel `(x, y)`. -/
def addErrPixel (buf : List ℕ) (w x y : ℕ) (e : ℚ) : List ℕ :=
  addErr (addErr (addErr buf (pixelIndex w x y) e) (pixelIndex w x y + 1) e)
    (pixelIndex w x y + 2) e

/-- One dithering step as the claim words it: grayscale is the unweighted
mean of R, G, B; the output is 0 when that value is below 128 and 255
otherwise; `error = oldValue - outputValue` is diffused to the right
neighbor (7/16), bottom-left (3/16), bottom (5/16) and bottom-right
(1/16), each skipped when outside the grid bounds. -/
def rasterStep (w h : ℕ) (buf : List ℕ) (x y : ℕ) : List ℕ :=
  let i := pixelIndex w x y
  let gray : ℚ :=
    ((buf.getD i 0 : ℚ) + (buf.getD (i + 1) 0 : ℚ) + (buf.getD (i + 2) 0 : ℚ)) / 3
  let out : ℕ := if gray < 128 then 0 else 255
  let buf1 := ((buf.set i out).set (i + 1) out).set (i + 2) out
  let err : ℚ := gray - (out : ℚ)
  let buf2 := if x + 1 < w then addErrPixel buf1 w (x + 1) y (err * 7 / 16) else buf1
  let buf3 := if y + 1 < h ∧ 0 < x then addErrPixel buf2 w (x - 1) (y + 1) (err * 3 / 16) else buf2
  let buf4 := if y + 1 < h then addErrPixel buf3 w x (y + 1) (err * 5 / 16) else buf3
  if y + 1 < h ∧ x + 1 < w then addErrPixel buf4 w (x + 1) (y + 1) (err * 1 / 16) else buf4

/-- The dithering pass as the claim words it: one fold over all pixel
positions in raster order (left-to-right, top-to-bottom), threading the
working buffer. -/
def ditherRaster (imageData : List ℕ) (w h : ℕ) : List ℕ :=
  (List.range (w * h)).foldl (fun buf p => rasterStep w h buf (p % w) (p / w)) imageData

/-- The inner `for x` loop of `convertToBitmap`: set bit `7 - x % 8` of
byte `x / 8` for every black position `x < n`. -/
def packLine (isBlack : ℕ → Bool) (n : ℕ) (line : List ℕ) : List ℕ :=
  (List.range n).foldl
    (fun l x =>
      if isBlack x then l.set (x / 8) (l.getD (x / 8) 0 ||| (1 <<< (7 - x % 8)))
      else l)
    line

/-- One row of `convertToBitmap`: `bytesPerLine = Math.ceil(width / 8)`
zero bytes, then the packing loop with `isBlack = pixels[idx] < 128`. -/
def buildLine (pixels : List ℕ) (w y : ℕ) : List ℕ :=
  packLine (fun x => pixels.getD ((y * w + x) * 4) 0 < 128) w
    (List.replicate ((w + 7) / 8) 0)

/-- `convertToBitmap(pixels, width, height)`: rows are concatenated
top-to-bottom (`bitmap.push(...line)`). -/
def convertToBitmap (pixels : List ℕ) (w h : ℕ) : List ℕ :=
  (List.range h).foldl (fun bitmap y => bitmap ++ buildLine pixels w y) []

/-- `processImageForPrinting(imageBuffer, maxWidth)`.  Decoding and canvas
resampling (`loadImage` / `drawImage`) are the external collaborators of
spec section 4.4; they are abstracted as the `resample` parameter, which
receives the decoded pixels, their dimensions, and the target dimensions.
The dimension arithmetic, dithering and bit-packing are from the source. -/
def processImageForPrinting (resample : List ℕ → ℕ → ℕ → ℕ → ℕ → List ℕ)
    (pixels : List ℕ) (imgWidth imgHeight maxWidth : ℕ) : ℕ × ℕ × List ℕ :=
  let width := if imgWidth > maxWidth then maxWidth else imgWidth
  let height :=
    if imgWidth > maxWidth then
      (⌊(imgHeight : ℚ) * ((maxWidth : ℚ) / (imgWidth : ℚ))⌋).toNat
    else imgHeight
  let resized := resample pixels imgWidth imgHeight width height
  let dithered := ditherImage resized width height
  (width, height, convertToBitmap dithered width height)

/-- A resampler producing a solid-white RGBA buffer at the requested
target dimensions — the behavior of the canvas resize primitive on a
solid-white input. -/
def whiteResample : List ℕ → ℕ → ℕ → ℕ → ℕ → List ℕ :=
  fun _ _ _ targetW targetH => List.replicate (4 * (targetW * targetH)) 255

set_option maxRecDepth 1000000

lemma lookupTbl_setTbl_self (tbl : RateTable) (k : String) (v : ℕ) :
    lookupTbl (setTbl tbl k v) k = v := by
  induction tbl with
  | nil => simp [setTbl, lookupTbl]
  | cons kv rest ih =>
    obtain ⟨k0, v0⟩ := kv
    by_cases h : k0 = k <;> simp [setTbl, lookupTbl, h, ih]

lemma lookupTbl_setTbl_ne (tbl : RateTable) (k q : String) (v : ℕ) (h : q ≠ k) :
    lookupTbl (setTbl tbl k v) q = lookupTbl tbl q := by
  induction tbl with
  | nil =>
    simp only [setTbl, lookupTbl]
    rw [if_neg (Ne.symm h)]
  | cons kv rest ih =>
    obtain ⟨k0, v0⟩ := kv
    by_cases h0 : k0 = k
    · subst h0
      simp only [setTbl, if_pos rfl, lookupTbl]
      rw [if_neg (Ne.symm h), if_neg (Ne.symm h)]
    · simp only [setTbl, if_neg h0, lookupTbl]
      by_cases hq : k0 = q
      · rw [if_pos hq, if_pos hq]
      · rw [if_neg hq, if_neg hq, ih]

lemma lookupTbl_increment_self (tbl : RateTable) (e d : String) :
    lookupTbl (incrementRateLimit tbl e d) (getRateLimitKey e d)
      = lookupTbl tbl (getRateLimitKey e d) + 1 := by
  simp [incrementRateLimit, lookupTbl_setTbl_self]

lemma lookupTbl_increment_le (tbl : RateTable) (e d : String) (k : String) :
    lookupTbl tbl k ≤ lookupTbl (incrementRateLimit tbl e d) k := by
  by_cases h : k = getRateLimitKey e d
  · subst h
    rw [lookupTbl_increment_self]
    omega
  · rw [incrementRateLimit, lookupTbl_setTbl_ne _ _ _ _ h]

lemma checkRateLimit_fst (limit : ℕ) (tbl : RateTable) (e d : String) :
    (checkRateLimit limit tbl e d).1 = true
      ↔ lookupTbl tbl (getRateLimitKey e d) < limit := by
  by_cases h : lookupTbl tbl (getRateLimitKey e d) ≥ limit
  · simp only [checkRateLimit, if_pos h]
    constructor
    · intro hfalse
      simp at hfalse
    · intro hlt
      exact absurd hlt (by omega)
  · simp only [checkRateLimit, if_neg h]
    constructor
    · intro _
      omega
    · intro _
      trivial

lemma runPrintAttempts_spec (limit : ℕ) (e d : String) :
    ∀ (n : ℕ) (tbl : RateTable) (k : ℕ),
      (runPrintAttempts limit e d tbl n).getD k false
        = (decide (k < n) && decide (lookupTbl tbl (getRateLimitKey e d) + k < limit))
  | 0, tbl, k => by simp [runPrintAttempts]
  | n + 1, tbl, k => by
    by_cases hallow : lookupTbl tbl (getRateLimitKey e d) < limit
    · have hc : (checkRateLimit limit tbl e d).1 = true := (checkRateLimit_fst _ _ _ _).2 hallow
      rw [runPrintAttempts, if_pos hc]
      cases k with
      | zero => simp [hallow]
      | succ k =>
        rw [List.getD_cons_succ, runPrintAttempts_spec limit e d n _ k,
          lookupTbl_increment_self]
        have h1 : (k < n) ↔ (k + 1 < n + 1) := by omega
        have h2 : (lookupTbl tbl (getRateLimitKey e d) + 1 + k < limit)
            ↔ (lookupTbl tbl (getRateLimitKey e d) + (k + 1) < limit) := by omega
        rw [decide_eq_decide.2 h1, decide_eq_decide.2 h2]
    · have hc : (checkRateLimit limit tbl e d).1 = false := by
        rw [← Bool.not_eq_true, checkRateLimit_fst]
        exact hallow
      rw [runPrintAttempts, if_neg (by simp [hc])]
      cases k with
      | zero => simp; omega
      | succ k =>
        rw [List.getD_cons_succ, runPrintAttempts_spec limit e d n _ k]
        have h1 : decide (lookupTbl tbl (getRateLimitKey e d) + k < limit) = false := by
          simp
          omega
        have h2 : decide (lookupTbl tbl (getRateLimitKey e d) + (k + 1) < limit) = false := by
          simp
          omega
        rw [h1, h2, Bool.and_false, Bool.and_false]

/-- C4 (amended): starting from a fresh record, when every allowed check
is followed by an increment — the sequence a run of successful prints
produces — the `allowed` result of the `(k+1)`-th call is `true` iff
`k < DAILY_LIMIT`; in particular `allowed = false` exactly from the
`(DAILY_LIMIT+1)`-th such call onward.  A bare `checkRateLimit` call
never mutates the table, so the claim as stated (about repeated `check`
calls alone) fails; see the counterexample. -/
theorem checkRateLimit_daily_limit (limit : ℕ) (e d : String) (n k : ℕ) :
    (runPrintAttempts limit e d [] n).getD k false
      = (decide (k < n) && decide (k < limit)) := by
  rw [runPrintAttempts_spec limit e d n [] k]
  simp [lookupTbl]

/-- C4 counterexample: with `RATE_LIMIT_PER_DAY = 3`, the fourth of four
consecutive bare `checkRateLimit` calls for the same sender and day still
returns `allowed = true`, because `check` does not record the call; the
claim demands `allowed = false` from the fourth call onward. -/
theorem checkRateLimit_pure_check_counterexample :
    (runChecks RATE_LIMIT_PER_DAY [] "a@x.com" "2026-10-12"
        (RATE_LIMIT_PER_DAY + 1)).getD RATE_LIMIT_PER_DAY false = true := by
  decide

lemma applyGuardedOps_bounded (limit : ℕ) :
    ∀ (ops : List GuardedOp) (tbl : RateTable),
      (∀ k, lookupTbl tbl k ≤ limit) →
      ∀ k, lookupTbl (applyGuardedOps limit tbl ops) k ≤ limit
  | [], _, hb, k => hb k
  | op :: rest, tbl, hb, k => by
    have hstep : ∀ q, lookupTbl (applyGuardedOp limit tbl op) q ≤ limit := by
      intro q
      cases op with
      | gCheck e d => exact hb q
      | gPrint e d =>
        simp only [applyGuardedOp]
        by_cases hc : (checkRateLimit limit tbl e d).1 = true
        · rw [if_pos hc]
          by_cases hq : q = getRateLimitKey e d
          · subst hq
            rw [lookupTbl_increment_self]
            have := (checkRateLimit_fst limit tbl e d).1 hc
            omega
          · rw [incrementRateLimit, lookupTbl_setTbl_ne _ _ _ _ hq]
            exact hb q
        · rw [if_neg hc]
          exact hb q
    have : applyGuardedOps limit tbl (op :: rest)
        = applyGuardedOps limit (applyGuardedOp limit tbl op) rest := by
      simp [applyGuardedOps]
    rw [this]
    exact applyGuardedOps_bounded limit rest _ hstep k

lemma lookupTbl_applyRateOps_le :
    ∀ (ops : List RateOp) (tbl : RateTable) (k : String),
      lookupTbl tbl k ≤ lookupTbl (applyRateOps tbl ops) k
  | [], _, _ => le_refl _
  | op :: rest, tbl, k => by
    have hstep : lookupTbl tbl k ≤ lookupTbl (applyRateOp tbl op) k := by
      cases op with
      | checkOp e d => exact le_refl _
      | incOp e d => exact lookupTbl_increment_le tbl e d k
    have : applyRateOps tbl (op :: rest) = applyRateOps (applyRateOp tbl op) rest := by
      simp [applyRateOps]
    rw [this]
    exact le_trans hstep (lookupTbl_applyRateOps_le rest _ k)

/-- C5 (amended): the stored count of every rate-limit record is
monotonically non-decreasing across any sequence of check/increment
operations, and under the pipeline's discipline (increment only after an
admission where the check allowed) every count remains at most — not
strictly below — the configured daily ceiling `RATE_LIMIT_PER_DAY`;
the ceiling itself is reached, see the counterexample. -/
theorem rateLimit_monotone_and_bounded (rawOps : List RateOp) (gOps : List GuardedOp)
    (tbl : RateTable) (hb : ∀ k, lookupTbl tbl k ≤ RATE_LIMIT_PER_DAY) :
    (∀ k, lookupTbl tbl k ≤ lookupTbl (applyRateOps tbl rawOps) k) ∧
    (∀ k, lookupTbl (applyGuardedOps RATE_LIMIT_PER_DAY tbl gOps) k ≤ RATE_LIMIT_PER_DAY) :=
  ⟨fun k => lookupTbl_applyRateOps_le rawOps tbl k,
   applyGuardedOps_bounded RATE_LIMIT_PER_DAY gOps tbl hb⟩

/-- Witness for C5 at a concrete table and operation sequence. -/
theorem rateLimit_monotone_and_bounded_witness :
    (∀ k, lookupTbl [] k ≤ RATE_LIMIT_PER_DAY) ∧
    ((∀ k, lookupTbl ([] : RateTable) k
        ≤ lookupTbl (applyRateOps [] [RateOp.incOp "a@x.com" "2026-10-12"]) k) ∧
     (∀ k, lookupTbl
          (applyGuardedOps RATE_LIMIT_PER_DAY [] [GuardedOp.gPrint "a@x.com" "2026-10-12"]) k
        ≤ RATE_LIMIT_PER_DAY)) :=
  ⟨fun _ => by simp [lookupTbl],
   rateLimit_monotone_and_bounded [RateOp.incOp "a@x.com" "2026-10-12"]
     [GuardedOp.gPrint "a@x.com" "2026-10-12"] [] (fun _ => by simp [lookupTbl])⟩

/-- C5 counterexample: three disciplined prints (each check allowed,
each followed by an increment) drive the stored count to exactly
`RATE_LIMIT_PER_DAY = 3`, so the count is not strictly below the
configured daily ceiling. -/
theorem rateLimit_count_reaches_ceiling :
    lookupTbl
        (applyGuardedOps RATE_LIMIT_PER_DAY []
          [GuardedOp.gPrint "a@x.com" "2026-10-12",
           GuardedOp.gPrint "a@x.com" "2026-10-12",
           GuardedOp.gPrint "a@x.com" "2026-10-12"])
        (getRateLimitKey "a@x.com" "2026-10-12") = RATE_LIMIT_PER_DAY ∧
    ¬ lookupTbl
        (applyGuardedOps RATE_LIMIT_PER_DAY []
          [GuardedOp.gPrint "a@x.com" "2026-10-12",
           GuardedOp.gPrint "a@x.com" "2026-10-12",
           GuardedOp.gPrint "a@x.com" "2026-10-12"])
        (getRateLimitKey "a@x.com" "2026-10-12") < RATE_LIMIT_PER_DAY := by
  decide

/-- C6 (amended): in email-handler variant 1, a text longer than
`MAX_TEXT_LENGTH` is always rejected; the reason states the limit exactly
when no blocklist keyword matches, the keyword check running first.
Variant 2 has no length check at all: an over-length text with no blocked
keyword is allowed there. -/
theorem moderateContent_length_check (text : String) (hlen : text.length > MAX_TEXT_LENGTH) :
    (moderateContent text).allowed = false ∧
    (scanKeywords (text.data.map Char.toLower) BLOCKED_KEYWORDS = false →
      moderateContent text
          = ⟨false, some ("Message too long (max " ++ toString MAX_TEXT_LENGTH ++ " characters)")⟩ ∧
      moderateContent_v2 text = ⟨true, none⟩) := by
  constructor
  · by_cases hk : scanKeywords (text.data.map Char.toLower) BLOCKED_KEYWORDS
    · simp [moderateContent, hk, hlen]
    · simp [moderateContent, hk, hlen]
  · intro hnk
    constructor <;> simp [moderateContent, moderateContent_v2, hnk, hlen]

/-- Witness for C6 at the 501-character text `aaa…a`. -/
theorem moderateContent_length_check_witness :
    (String.mk (List.replicate 501 'a')).length > MAX_TEXT_LENGTH ∧
    ((moderateContent (String.mk (List.replicate 501 'a'))).allowed = false ∧
     (scanKeywords ((String.mk (List.replicate 501 'a')).data.map Char.toLower) BLOCKED_KEYWORDS = false →
       moderateContent (String.mk (List.replicate 501 'a'))
           = ⟨false, some ("Message too long (max " ++ toString MAX_TEXT_LENGTH ++ " characters)")⟩ ∧
       moderateContent_v2 (String.mk (List.replicate 501 'a')) = ⟨true, none⟩)) :=
  ⟨by decide, moderateContent_length_check (String.mk (List.replicate 501 'a')) (by decide)⟩

/-- C6 counterexample: the 501-character text `aaa…a` exceeds
`MAX_TEXT_LENGTH = 500` and matches no blocklist keyword, yet
`moderateContent` of variant 2 allows it (that variant never checks the
length); and in variant 1 a 501-character text containing `kill` is
rejected with the generic keyword reason, not a reason stating the
limit.  Both refute the claim that an over-length text is always
rejected with a reason stating the limit. -/
theorem moderateContent_length_counterexample :
    (String.mk (List.replicate 501 'a')).length > MAX_TEXT_LENGTH ∧
    (moderateContent_v2 (String.mk (List.replicate 501 'a'))).allowed = true ∧
    ("kill" ++ String.mk (List.replicate 497 'a')).length > MAX_TEXT_LENGTH ∧
    moderateContent ("kill" ++ String.mk (List.replicate 497 'a'))
      = ⟨false, some "Content contains inappropriate language"⟩ := by
  refine ⟨by decide, by decide, by decide, by decide⟩

lemma firstOversize_eq_any (l : List Attachment) :
    firstOversize l =
      if l.any (fun a => sizeInMB a > (MAX_IMAGE_SIZE_MB : ℚ)) then
        some ⟨false, some ("Image too large (max " ++ toString MAX_IMAGE_SIZE_MB ++ "MB per image)")⟩
      else none := by
  induction l with
  | nil => simp [firstOversize]
  | cons a rest ih =>
    by_cases h : sizeInMB a > (MAX_IMAGE_SIZE_MB : ℚ) <;>
      simp [firstOversize, h, ih]

/-- C7: `validateImages` allows an absent or empty attachment list,
considers only attachments whose content type starts with `image/`, and
agrees everywhere with the claim's fixed-order evaluation (count, then
per-item size, then total size, returning the first failing reason and
`allowed = true` when none fails). -/
theorem validateImages_correct :
    validateImages none = ⟨true, none⟩ ∧
    validateImages (some []) = ⟨true, none⟩ ∧
    ∀ atts : Option (List Attachment), validateImages atts = specValidateImages atts := by
  have main : ∀ atts : Option (List Attachment),
      validateImages atts = specValidateImages atts := by
    intro atts
    match atts with
    | none => rfl
    | some [] =>
      show Verdict.mk true none = specValidateImages (some [])
      simp only [specValidateImages, List.filter_nil, List.length_nil, List.any_nil,
        List.foldl_nil]
      norm_num [MAX_IMAGES_PER_EMAIL, MAX_TOTAL_EMAIL_SIZE_MB]
    | some (a :: l) =>
      have hne : ¬ ((a :: l).length = 0) := by simp
      simp only [validateImages, specValidateImages, firstOversize_eq_any, if_neg hne]
      by_cases hc : ((a :: l).filter isImageAttachment).length > MAX_IMAGES_PER_EMAIL
      · rw [if_pos hc, if_pos hc]
      · rw [if_neg hc, if_neg hc]
        by_cases ha : ((a :: l).filter isImageAttachment).any
            (fun a => sizeInMB a > (MAX_IMAGE_SIZE_MB : ℚ))
        · rw [if_pos ha, if_pos ha]
        · rw [if_neg ha, if_neg ha]
  exact ⟨main none, by rw [main (some [])]; simp only [specValidateImages, List.filter_nil,
    List.length_nil, List.any_nil, List.foldl_nil]; norm_num [MAX_IMAGES_PER_EMAIL,
    MAX_TOTAL_EMAIL_SIZE_MB], main⟩

lemma infix_of_jsIncludes (hay needle : List Char) :
    jsIncludes hay needle = true ↔ needle <:+: hay := by
  induction hay with
  | nil =>
    cases needle with
    | nil => simp [jsIncludes, List.isPrefixOf]
    | cons c t => simp [jsIncludes, List.isPrefixOf]
  | cons c t ih =>
    rw [jsIncludes]
    by_cases hp : needle.isPrefixOf (c :: t)
    · rw [if_pos hp]
      simp only [true_iff]
      exact (List.isPrefixOf_iff_prefix.1 hp).isInfix
    · rw [if_neg hp]
      rw [ih, List.infix_cons_iff]
      have hp' : ¬ needle <+: (c :: t) := fun hpre => hp (List.isPrefixOf_iff_prefix.2 hpre)
      constructor
      · exact fun hti => Or.inr hti
      · rintro (hpre | hti)
        · exact absurd hpre hp'
        · exact hti

lemma jsIncludes_of_cons (k y : List Char) (c : Char) (h : jsIncludes k (c :: y) = true) :
    jsIncludes k y = true := by
  rw [infix_of_jsIncludes] at h ⊢
  exact List.IsInfix.trans ⟨[c], [], by simp⟩ h

/-- C8 (amended): the hourly sweep removes exactly those records whose
key contains yesterday's date as a substring (the source's second test
against `':' + yesterday` is subsumed by the first); every other record —
in particular any record keyed to a day before yesterday — survives, so
after a sweep records keyed to days other than the current day can
remain.  See the counterexample. -/
theorem cleanupOldRateLimits_spec (tbl : RateTable) (yesterday : String) :
    cleanupOldRateLimits tbl yesterday
        = tbl.filter (fun kv => !(jsIncludes kv.1.data yesterday.data)) ∧
    ∀ kv : String × ℕ, kv ∈ cleanupOldRateLimits tbl yesterday ↔
      kv ∈ tbl ∧ ¬ (yesterday.data <:+: kv.1.data) := by
  have hsimp : ∀ kv : String × ℕ,
      (!(jsIncludes kv.1.data yesterday.data
          || jsIncludes kv.1.data ((":" ++ yesterday).data)))
        = !(jsIncludes kv.1.data yesterday.data) := by
    intro kv
    by_cases h : jsIncludes kv.1.data yesterday.data
    · simp [h]
    · have hcolon : (":" ++ yesterday).data = ':' :: yesterday.data := by
        rw [String.data_append]
        rfl
      have h2 : jsIncludes kv.1.data (':' :: yesterday.data) = false := by
        cases hj : jsIncludes kv.1.data (':' :: yesterday.data) with
        | false => rfl
        | true => exact absurd (jsIncludes_of_cons _ _ _ hj) h
      simp [h, hcolon, h2]
  have heq : cleanupOldRateLimits tbl yesterday
      = tbl.filter (fun kv => !(jsIncludes kv.1.data yesterday.data)) := by
    unfold cleanupOldRateLimits
    exact List.filter_congr (fun kv _ => hsimp kv)
  refine ⟨heq, fun kv => ?_⟩
  rw [heq, List.mem_filter]
  constructor
  · rintro ⟨hmem, hflt⟩
    refine ⟨hmem, fun hinf => ?_⟩
    rw [Bool.not_eq_true'] at hflt
    rw [← infix_of_jsIncludes kv.1.data yesterday.data] at hinf
    rw [hflt] at hinf
    cases hinf
  · rintro ⟨hmem, hninf⟩
    refine ⟨hmem, ?_⟩
    rw [Bool.not_eq_true']
    by_contra hne
    have : jsIncludes kv.1.data yesterday.data = true := by
      revert hne
      cases jsIncludes kv.1.data yesterday.data <;> simp
    exact hninf ((infix_of_jsIncludes _ _).1 this)

/-- C8 counterexample: with the current day `2026-10-12` (yesterday
`2026-10-11`), the record keyed `a@x.com:2026-10-10` — a day component
that does not match the current day — survives the sweep, because its
key does not contain yesterday's date as a substring. -/
theorem cleanupOldRateLimits_counterexample :
    cleanupOldRateLimits [("a@x.com:2026-10-10", 1)] "2026-10-11"
        = [("a@x.com:2026-10-10", 1)] ∧
    jsIncludes ("a@x.com:2026-10-10").data ("2026-10-12").data = false := by
  refine ⟨by decide, by decide⟩

/-- C3: evaluating the webhook pipeline at an admitted request whose
printer device reports an error to the `device.open` callback: nothing is
printed, yet `incrementRateLimit` is called (and the handler answers
`{printed: true}`), because the source calls `incrementRateLimit` right
after `device.open(...)` returns, outside the callback.  This contradicts
the claim (and spec section 4.1) that `increment` is called only after a
successful dispatch. -/
theorem webhookIncrement_despite_open_failure :
    webhookEmail
        { eventIsEmailReceived := true, sender := "a@x.com", today := "2026-10-12",
          message := "hello", resendConfigured := false, emailId := none,
          fetchedAttachments := none, imageVerdict := fun _ => ⟨true, none⟩,
          deviceSyncThrow := false, deviceOpenError := true } []
      = (WebhookOutcome.printedResponse false, true, [("a@x.com:2026-10-12", 1)]) := by
  decide

lemma getD_oob : ∀ (l : List ℕ) (i d : ℕ), l.length ≤ i → l.getD i d = d
  | [], i, _, _ => by cases i <;> rfl
  | _ :: _, 0, _, h => by simp at h
  | _ :: t, i + 1, d, h => by
    rw [List.getD_cons_succ]
    exact getD_oob t i d (by simpa using h)

lemma getD_set_self : ∀ (l : List ℕ) (i v : ℕ), i < l.length → (l.set i v).getD i 0 = v
  | [], _, _, h => by simp at h
  | _ :: _, 0, _, _ => rfl
  | _ :: t, i + 1, v, h => by
    rw [List.set_cons_succ, List.getD_cons_succ]
    exact getD_set_self t i v (by simpa using h)

lemma getD_set_ne : ∀ (l : List ℕ) (i j v : ℕ), i ≠ j → (l.set i v).getD j 0 = l.getD j 0
  | [], _, _, _, _ => rfl
  | _ :: _, 0, 0, _, h => absurd rfl h
  | _ :: _, 0, _ + 1, _, _ => by
    rw [List.set_cons_zero, List.getD_cons_succ, List.getD_cons_succ]
  | _ :: _, _ + 1, 0, _, _ => by
    rw [List.set_cons_succ, List.getD_cons_zero, List.getD_cons_zero]
  | _ :: t, i + 1, j + 1, v, h => by
    rw [List.set_cons_succ, List.getD_cons_succ, List.getD_cons_succ]
    exact getD_set_ne t i j v (fun e => h (by rw [e]))

lemma set_getD_self : ∀ (l : List ℕ) (i : ℕ), i < l.length → l.set i (l.getD i 0) = l
  | [], _, h => by simp at h
  | _ :: _, 0, _ => rfl
  | _ :: t, i + 1, h => by
    rw [List.getD_cons_succ, List.set_cons_succ, set_getD_self t i (by simpa using h)]

lemma getD_replicate_zero : ∀ (n i : ℕ), (List.replicate n (0 : ℕ)).getD i 0 = 0
  | 0, i => by cases i <;> rfl
  | _ + 1, 0 => rfl
  | n + 1, i + 1 => by
    rw [List.replicate_succ, List.getD_cons_succ]
    exact getD_replicate_zero n i

lemma getD_replicate_lt (v : ℕ) : ∀ (n i : ℕ), i < n → (List.replicate n v).getD i 0 = v
  | 0, _, h => absurd h (by omega)
  | _ + 1, 0, _ => rfl
  | n + 1, i + 1, h => by
    rw [List.replicate_succ, List.getD_cons_succ]
    exact getD_replicate_lt v n i (by omega)

lemma set_replicate_self (v : ℕ) : ∀ (n i : ℕ), (List.replicate n v).set i v = List.replicate n v
  | 0, _ => rfl
  | _ + 1, 0 => by rw [List.replicate_succ, List.set_cons_zero, ← List.replicate_succ]
  | n + 1, i + 1 => by
    rw [List.replicate_succ, List.set_cons_succ, set_replicate_self v n i, ← List.replicate_succ]

lemma getD_append_left : ∀ (l₁ l₂ : List ℕ) (i : ℕ), i < l₁.length →
    (l₁ ++ l₂).getD i 0 = l₁.getD i 0
  | [], _, _, h => by simp at h
  | _ :: _, _, 0, _ => rfl
  | _ :: t, l₂, i + 1, h => by
    rw [List.cons_append, List.getD_cons_succ, List.getD_cons_succ]
    exact getD_append_left t l₂ i (by simpa using h)

lemma getD_append_right : ∀ (l₁ l₂ : List ℕ) (i : ℕ),
    (l₁ ++ l₂).getD (l₁.length + i) 0 = l₂.getD i 0
  | [], _, _ => by simp
  | a :: t, l₂, i => by
    rw [List.cons_append, List.length_cons]
    have hmv : t.length + 1 + i = (t.length + i) + 1 := by omega
    rw [hmv, List.getD_cons_succ]
    exact getD_append_right t l₂ i

lemma roundHalfEven_le_of_lt (q : ℚ) (h : q < 255) : roundHalfEven q ≤ 255 := by
  have hf : ⌊q⌋ < 255 := Int.floor_lt.2 (by exact_mod_cast h)
  unfold roundHalfEven
  split
  · omega
  · split
    · omega
    · split <;> omega

lemma clampStore_le (q : ℚ) : clampStore q ≤ 255 := by
  unfold clampStore
  split
  · omega
  · split
    · omega
    · rename_i h1 h2
      have := roundHalfEven_le_of_lt q (by push_neg at h2; exact h2)
      omega

lemma clampStore_saturate_top (e : ℚ) (he : 0 ≤ e) : clampStore (255 + e) = 255 := by
  unfold clampStore
  rw [if_neg (by linarith), if_pos (by linarith)]

lemma clampStore_saturate_bot (e : ℚ) (he : e ≤ 0) : clampStore (0 + e) = 0 := by
  unfold clampStore
  rw [if_pos (by linarith)]

/-- C10: the dithering working buffer has `Uint8ClampedArray` store
semantics: every error-propagation write stores a natural number at most
255 (clamping and rounding the accumulated grayscale value), and a pixel
already saturated absorbs no further error in the saturating direction —
adding a nonnegative error to a pixel at 255, or a nonpositive error to a
pixel at 0, leaves the buffer unchanged. -/
theorem ditherBuffer_clamped_saturation (buf : List ℕ) (j : ℕ) (e : ℚ) (hj : j < buf.length) :
    (addErr buf j e).getD j 0 ≤ 255 ∧
    (buf.getD j 0 = 255 → 0 ≤ e → addErr buf j e = buf) ∧
    (buf.getD j 0 = 0 → e ≤ 0 → addErr buf j e = buf) := by
  refine ⟨?_, ?_, ?_⟩
  · unfold addErr
    rw [getD_set_self _ _ _ hj]
    exact clampStore_le _
  · intro h255 he
    unfold addErr
    rw [h255]
    have : clampStore ((255 : ℕ) + e) = 255 := by
      have hcast : ((255 : ℕ) : ℚ) + e = 255 + e := by push_cast; ring
      rw [hcast]
      exact clampStore_saturate_top e he
    rw [this, ← h255, set_getD_self _ _ hj]
  · intro h0 he
    unfold addErr
    rw [h0]
    have : clampStore ((0 : ℕ) + e) = 0 := by
      have hcast : ((0 : ℕ) : ℚ) + e = 0 + e := by push_cast; ring
      rw [hcast]
      exact clampStore_saturate_bot e he
    rw [this, ← h0, set_getD_self _ _ hj]

/-- Witness for C10 at a one-pixel buffer already at 255 and error 1. -/
theorem ditherBuffer_clamped_saturation_witness :
    0 < ([255] : List ℕ).length ∧
    ((addErr [255] 0 1).getD 0 0 ≤ 255 ∧
     (([255] : List ℕ).getD 0 0 = 255 → 0 ≤ (1 : ℚ) → addErr [255] 0 1 = [255]) ∧
     (([255] : List ℕ).getD 0 0 = 0 → (1 : ℚ) ≤ 0 → addErr [255] 0 1 = [255])) :=
  ⟨by decide, ditherBuffer_clamped_saturation [255] 0 1 (by decide)⟩

lemma packLine_length (isBlack : ℕ → Bool) : ∀ (n : ℕ) (line : List ℕ),
    (packLine isBlack n line).length = line.length
  | 0, _ => rfl
  | n + 1, line => by
    show ((List.range (n + 1)).foldl _ line).length = _
    rw [List.range_succ, List.foldl_append, List.foldl_cons, List.foldl_nil]
    by_cases hb : isBlack n
    · rw [if_pos hb, List.length_set]
      exact packLine_length isBlack n line
    · rw [if_neg hb]
      exact packLine_length isBlack n line

lemma packLine_testBit (isBlack : ℕ → Bool) : ∀ (n : ℕ) (line : List ℕ),
    n ≤ 8 * line.length → ∀ (j b : ℕ), b < 8 →
    Nat.testBit ((packLine isBlack n line).getD j 0) b
      = (Nat.testBit (line.getD j 0) b
          || (decide (8 * j + (7 - b) < n) && isBlack (8 * j + (7 - b))))
  | 0, line, _, j, b, _ => by simp [packLine]
  | n + 1, line, hn, j, b, hb => by
    have hle : n ≤ 8 * line.length := by omega
    have IH := packLine_testBit isBlack n line hle j b hb
    have hA : packLine isBlack (n + 1) line
        = (if isBlack n then
            (packLine isBlack n line).set (n / 8)
              ((packLine isBlack n line).getD (n / 8) 0 ||| (1 <<< (7 - n % 8)))
          else packLine isBlack n line) := by
      show (List.range (n + 1)).foldl _ line = _
      rw [List.range_succ, List.foldl_append, List.foldl_cons, List.foldl_nil]
      rfl
    rw [hA]
    have hAlen : (packLine isBlack n line).length = line.length := packLine_length isBlack n line
    by_cases hblack : isBlack n
    · rw [if_pos hblack]
      have hn8 : n / 8 < line.length := by omega
      by_cases hj : j = n / 8
      · subst hj
        rw [getD_set_self _ _ _ (by rw [hAlen]; exact hn8)]
        rw [Nat.shiftLeft_eq, one_mul, Nat.testBit_or]
        by_cases hbb : b = 7 - n % 8
        · subst hbb
          have hXn : 8 * (n / 8) + (7 - (7 - n % 8)) = n := by omega
          rw [Nat.testBit_two_pow_self, IH, hXn]
          simp [hblack]
        · rw [Nat.testBit_two_pow_of_ne (fun e => hbb e.symm), Bool.or_false, IH]
          have hiff : (8 * (n / 8) + (7 - b) < n) ↔ (8 * (n / 8) + (7 - b) < n + 1) := by omega
          rw [decide_eq_decide.2 hiff]
      · rw [getD_set_ne _ _ _ _ (fun e => hj e.symm), IH]
        have hiff : (8 * j + (7 - b) < n) ↔ (8 * j + (7 - b) < n + 1) := by omega
        rw [decide_eq_decide.2 hiff]
    · rw [if_neg hblack, IH]
      have hbf : isBlack n = false := by
        revert hblack
        cases isBlack n <;> simp
      by_cases hX : 8 * j + (7 - b) = n
      · rw [hX, hbf, Bool.and_false, Bool.and_false]
      · have hiff : (8 * j + (7 - b) < n) ↔ (8 * j + (7 - b) < n + 1) := by omega
        rw [decide_eq_decide.2 hiff]

lemma w_le_8bpl (w : ℕ) : w ≤ 8 * ((w + 7) / 8) := by
  have h1 := Nat.div_add_mod (w + 7) 8
  have h2 : (w + 7) % 8 < 8 := Nat.mod_lt _ (by norm_num)
  omega

lemma buildLine_length (px : List ℕ) (w y : ℕ) : (buildLine px w y).length = (w + 7) / 8 := by
  unfold buildLine
  rw [packLine_length, List.length_replicate]

lemma buildLine_testBit (px : List ℕ) (w y j b : ℕ) (hb : b < 8) :
    Nat.testBit ((buildLine px w y).getD j 0) b
      = (decide (8 * j + (7 - b) < w)
          && decide (px.getD ((y * w + (8 * j + (7 - b))) * 4) 0 < 128)) := by
  unfold buildLine
  rw [packLine_testBit _ w _ (by rw [List.length_replicate]; exact w_le_8bpl w) j b hb,
    getD_replicate_zero, Nat.zero_testBit, Bool.false_or]

lemma convertToBitmap_succ (px : List ℕ) (w h : ℕ) :
    convertToBitmap px w (h + 1) = convertToBitmap px w h ++ buildLine px w h := by
  show (List.range (h + 1)).foldl _ [] = _
  rw [List.range_succ, List.foldl_append, List.foldl_cons, List.foldl_nil]
  rfl

lemma convertToBitmap_length (px : List ℕ) (w : ℕ) :
    ∀ h, (convertToBitmap px w h).length = h * ((w + 7) / 8)
  | 0 => by simp [convertToBitmap]
  | h + 1 => by
    rw [convertToBitmap_succ, List.length_append, convertToBitmap_length px w h,
      buildLine_length]
    ring

lemma convertToBitmap_getD (px : List ℕ) (w : ℕ) :
    ∀ (h y j : ℕ), y < h → j < (w + 7) / 8 →
      (convertToBitmap px w h).getD (y * ((w + 7) / 8) + j) 0 = (buildLine px w y).getD j 0
  | 0, y, _, hy, _ => absurd hy (Nat.not_lt_zero y)
  | h + 1, y, j, hy, hj => by
    rw [convertToBitmap_succ]
    by_cases hyh : y < h
    · rw [getD_append_left]
      · exact convertToBitmap_getD px w h y j hyh hj
      · rw [convertToBitmap_length]
        have hsucc : (y + 1) * ((w + 7) / 8) = y * ((w + 7) / 8) + (w + 7) / 8 := by ring
        have h2 : (y + 1) * ((w + 7) / 8) ≤ h * ((w + 7) / 8) :=
          Nat.mul_le_mul_right _ hyh
        omega
    · have hyeq : y = h := by omega
      subst hyeq
      have hidx : y * ((w + 7) / 8) + j = (convertToBitmap px w y).length + j := by
        rw [convertToBitmap_length]
      rw [hidx, getD_append_right]

/-- C2: for binary (0/255) dithered pixel values, `convertToBitmap`
produces `h * ceil(w/8)` bytes, rows of `ceil(w/8)` bytes concatenated
top-to-bottom, and bit `b` of byte `j` of row `y` (most significant bit
first: bit `7 - x % 8` carries pixel `x = 8j + (7-b)`) is set exactly
when that pixel is inside the row and black (value 0); bits past the row
width — the unused trailing bits of a row's last byte — are 0. -/
theorem convertToBitmap_correct (px : List ℕ) (w h : ℕ)
    (hbin : ∀ i < w * h, px.getD (4 * i) 0 = 0 ∨ px.getD (4 * i) 0 = 255) :
    (convertToBitmap px w h).length = h * ((w + 7) / 8) ∧
    ∀ y < h, ∀ j < (w + 7) / 8, ∀ b < 8,
      Nat.testBit ((convertToBitmap px w h).getD (y * ((w + 7) / 8) + j) 0) b
        = (decide (8 * j + (7 - b) < w)
            && decide (px.getD ((y * w + (8 * j + (7 - b))) * 4) 0 = 0)) := by
  refine ⟨convertToBitmap_length px w h, ?_⟩
  intro y hy j hj b hb
  rw [convertToBitmap_getD px w h y j hy hj, buildLine_testBit px w y j b hb]
  by_cases hx : 8 * j + (7 - b) < w
  · have hidx : y * w + (8 * j + (7 - b)) < w * h := by
      have hsucc : (y + 1) * w = y * w + w := by ring
      have h2 : (y + 1) * w ≤ h * w := Nat.mul_le_mul_right _ hy
      have h3 : h * w = w * h := Nat.mul_comm h w
      omega
    have hcast : (y * w + (8 * j + (7 - b))) * 4 = 4 * (y * w + (8 * j + (7 - b))) := by ring
    rw [hcast]
    rcases hbin _ hidx with h0 | h255
    · rw [h0]
      simp
    · rw [h255]
      simp
  · simp [hx]

/-- Witness for C2 at the 2×1 image whose left pixel is black and right
pixel is white: one row of one byte, high bit set for the black pixel. -/
theorem convertToBitmap_correct_witness :
    (∀ i < 2 * 1, ([0, 0, 0, 255, 255, 255, 255, 255] : List ℕ).getD (4 * i) 0 = 0
        ∨ ([0, 0, 0, 255, 255, 255, 255, 255] : List ℕ).getD (4 * i) 0 = 255) ∧
    (convertToBitmap [0, 0, 0, 255, 255, 255, 255, 255] 2 1).length = 1 * ((2 + 7) / 8) ∧
    Nat.testBit ((convertToBitmap [0, 0, 0, 255, 255, 255, 255, 255] 2 1).getD
        (0 * ((2 + 7) / 8) + 0) 0) 7
      = (decide (8 * 0 + (7 - 7) < 2)
          && decide (([0, 0, 0, 255, 255, 255, 255, 255] : List ℕ).getD
              ((0 * 2 + (8 * 0 + (7 - 7))) * 4) 0 = 0)) :=
  ⟨by decide,
   (convertToBitmap_correct [0, 0, 0, 255, 255, 255, 255, 255] 2 1 (by decide)).1,
   (convertToBitmap_correct [0, 0, 0, 255, 255, 255, 255, 255] 2 1 (by decide)).2
     0 (by decide) 0 (by decide) 7 (by decide)⟩

lemma addErr_zero_replicate (n j : ℕ) :
    addErr (List.replicate n 255) j 0 = List.replicate n 255 := by
  unfold addErr
  by_cases hj : j < n
  · rw [getD_replicate_lt _ _ _ hj]
    have hc : clampStore (((255 : ℕ) : ℚ) + 0) = 255 := by
      have he : ((255 : ℕ) : ℚ) + 0 = 255 + 0 := by push_cast; ring
      rw [he]
      exact clampStore_saturate_top 0 le_rfl
    rw [hc, set_replicate_self]
  · rw [List.set_eq_of_length_le (by rw [List.length_replicate]; omega)]

lemma ditherStep_white (w h x y : ℕ) (hx : x < w) (hy : y < h) :
    ditherStep w h (List.replicate (4 * (w * h)) 255) x y
      = List.replicate (4 * (w * h)) 255 := by
  have hsucc : (y + 1) * w = y * w + w := by ring
  have h2 : (y + 1) * w ≤ h * w := Nat.mul_le_mul_right _ hy
  have h3 : h * w = w * h := Nat.mul_comm h w
  have g0 : (List.replicate (4 * (w * h)) (255 : ℕ)).getD ((y * w + x) * 4) 0 = 255 :=
    getD_replicate_lt _ _ _ (by omega)
  have g1 : (List.replicate (4 * (w * h)) (255 : ℕ)).getD ((y * w + x) * 4 + 1) 0 = 255 :=
    getD_replicate_lt _ _ _ (by omega)
  have g2 : (List.replicate (4 * (w * h)) (255 : ℕ)).getD ((y * w + x) * 4 + 2) 0 = 255 :=
    getD_replicate_lt _ _ _ (by omega)
  simp only [ditherStep, g0, g1, g2]
  norm_num
  simp [set_replicate_self, addErr_zero_replicate]

lemma dither_white (w h : ℕ) :
    ditherImage (List.replicate (4 * (w * h)) 255) w h
      = List.replicate (4 * (w * h)) 255 := by
  unfold ditherImage
  have houter : ∀ (ys : List ℕ), (∀ y ∈ ys, y < h) →
      ys.foldl (fun buf y => (List.range w).foldl (fun buf x => ditherStep w h buf x y) buf)
          (List.replicate (4 * (w * h)) 255)
        = List.replicate (4 * (w * h)) 255 := by
    intro ys
    induction ys with
    | nil => intro _; rfl
    | cons y rest ih =>
      intro hmem
      rw [List.foldl_cons]
      have hinner : ∀ (xs : List ℕ), (∀ x ∈ xs, x < w) →
          xs.foldl (fun buf x => ditherStep w h buf x y) (List.replicate (4 * (w * h)) 255)
            = List.replicate (4 * (w * h)) 255 := by
        intro xs
        induction xs with
        | nil => intro _; rfl
        | cons x xrest xih =>
          intro hxm
          rw [List.foldl_cons,
            ditherStep_white w h x y (hxm x (by simp)) (hmem y (by simp))]
          exact xih (fun a ha => hxm a (by simp [ha]))
      rw [hinner (List.range w) (fun a ha => List.mem_range.1 ha)]
      exact ih (fun a ha => hmem a (by simp [ha]))
  exact houter (List.range h) (fun a ha => List.mem_range.1 ha)

lemma packLine_no_black (isBlack : ℕ → Bool) : ∀ (n : ℕ) (line : List ℕ),
    (∀ x < n, isBlack x = false) → packLine isBlack n line = line
  | 0, _, _ => rfl
  | n + 1, line, hno => by
    have hstep : packLine isBlack (n + 1) line
        = (if isBlack n then
            (packLine isBlack n line).set (n / 8)
              ((packLine isBlack n line).getD (n / 8) 0 ||| (1 <<< (7 - n % 8)))
          else packLine isBlack n line) := by
      show (List.range (n + 1)).foldl _ line = _
      rw [List.range_succ, List.foldl_append, List.foldl_cons, List.foldl_nil]
      rfl
    rw [hstep, hno n (by omega)]
    simp only [Bool.false_eq_true, if_false]
    exact packLine_no_black isBlack n line (fun x hx => hno x (by omega))

lemma buildLine_white (px : List ℕ) (w y : ℕ)
    (hwhite : ∀ x < w, px.getD ((y * w + x) * 4) 0 = 255) :
    buildLine px w y = List.replicate ((w + 7) / 8) 0 := by
  unfold buildLine
  apply packLine_no_black
  intro x hx
  show decide (px.getD ((y * w + x) * 4) 0 < 128) = false
  rw [hwhite x hx]
  rfl

lemma convertToBitmap_white (px : List ℕ) (w : ℕ) :
    ∀ h, (∀ i < w * h, px.getD (i * 4) 0 = 255) →
      convertToBitmap px w h = List.replicate (h * ((w + 7) / 8)) 0
  | 0, _ => by simp [convertToBitmap]
  | h + 1, hwhite => by
    have hmono : ∀ i < w * h, px.getD (i * 4) 0 = 255 := by
      intro i hi
      have hstep : w * (h + 1) = w * h + w := by ring
      exact hwhite i (by omega)
    have hrow : ∀ x < w, px.getD ((h * w + x) * 4) 0 = 255 := by
      intro x hx
      have hstep : w * (h + 1) = w * h + w := by ring
      have hcomm : h * w = w * h := Nat.mul_comm h w
      exact hwhite (h * w + x) (by omega)
    rw [convertToBitmap_succ, convertToBitmap_white px w h hmono, buildLine_white px w h hrow,
      ← List.replicate_add]
    congr 1
    ring

/-- C9: for a solid-white input (any resampler output on it is solid
white at the target dimensions), `processImageForPrinting` yields width
`min N maxWidth`, height `⌊M * maxWidth / N⌋` when `N > maxWidth` and `M`
otherwise (no upscaling), and a bitmap that is all zero bytes — hence all
zero bits. -/
theorem processImage_white (resample : List ℕ → ℕ → ℕ → ℕ → ℕ → List ℕ)
    (px : List ℕ) (imgW imgH maxW : ℕ)
    (hwhite : ∀ targetW targetH,
      resample px imgW imgH targetW targetH = List.replicate (4 * (targetW * targetH)) 255) :
    (processImageForPrinting resample px imgW imgH maxW).1 = min imgW maxW ∧
    (processImageForPrinting resample px imgW imgH maxW).2.1
      = (if maxW < imgW then (⌊(imgH : ℚ) * ((maxW : ℚ) / (imgW : ℚ))⌋).toNat else imgH) ∧
    (processImageForPrinting resample px imgW imgH maxW).2.2
      = List.replicate ((processImageForPrinting resample px imgW imgH maxW).2.1
          * (((processImageForPrinting resample px imgW imgH maxW).1 + 7) / 8)) 0 := by
  have hbody : processImageForPrinting resample px imgW imgH maxW
      = (if imgW > maxW then maxW else imgW,
         if imgW > maxW then (⌊(imgH : ℚ) * ((maxW : ℚ) / (imgW : ℚ))⌋).toNat else imgH,
         convertToBitmap
           (ditherImage
             (resample px imgW imgH (if imgW > maxW then maxW else imgW)
               (if imgW > maxW then (⌊(imgH : ℚ) * ((maxW : ℚ) / (imgW : ℚ))⌋).toNat else imgH))
             (if imgW > maxW then maxW else imgW)
             (if imgW > maxW then (⌊(imgH : ℚ) * ((maxW : ℚ) / (imgW : ℚ))⌋).toNat else imgH))
           (if imgW > maxW then maxW else imgW)
           (if imgW > maxW then (⌊(imgH : ℚ) * ((maxW : ℚ) / (imgW : ℚ))⌋).toNat else imgH)) := rfl
  rw [hbody]
  refine ⟨?_, rfl, ?_⟩
  · show (if maxW < imgW then maxW else imgW) = min imgW maxW
    rw [Nat.min_def]
    by_cases hc : imgW ≤ maxW
    · rw [if_pos hc, if_neg (by omega)]
    · rw [if_neg hc, if_pos (by omega)]
  · show convertToBitmap (ditherImage (resample px imgW imgH _ _) _ _) _ _ = _
    rw [hwhite, dither_white, convertToBitmap_white]
    intro i hi
    exact getD_replicate_lt _ _ _ (by omega)

/-- Witness for C9: a 2×2 solid-white image printed at `maxWidth = 1`. -/
theorem processImage_white_witness :
    (∀ targetW targetH,
      whiteResample [] 2 2 targetW targetH = List.replicate (4 * (targetW * targetH)) 255) ∧
    ((processImageForPrinting whiteResample [] 2 2 1).1 = min 2 1 ∧
     (processImageForPrinting whiteResample [] 2 2 1).2.1
       = (if 1 < 2 then (⌊(2 : ℚ) * ((1 : ℚ) / (2 : ℚ))⌋).toNat else 2) ∧
     (processImageForPrinting whiteResample [] 2 2 1).2.2
       = List.replicate ((processImageForPrinting whiteResample [] 2 2 1).2.1
           * (((processImageForPrinting whiteResample [] 2 2 1).1 + 7) / 8)) 0) := by
  refine ⟨fun _ _ => rfl, ?_⟩
  have h := processImage_white whiteResample [] 2 2 1 (fun _ _ => rfl)
  have hc1 : ((2 : ℕ) : ℚ) = (2 : ℚ) := by norm_num
  have hc2 : ((1 : ℕ) : ℚ) = (1 : ℚ) := by norm_num
  refine ⟨h.1, ?_, h.2.2⟩
  rw [h.2.1, hc1, hc2]

lemma foldl_grid {β : Type} (g : β → ℕ → ℕ → β) (w : ℕ) :
    ∀ (h : ℕ) (b : β),
      (List.range h).foldl
          (fun acc y => (List.range w).foldl (fun acc2 x => g acc2 x y) acc) b
        = (List.range (w * h)).foldl (fun acc p => g acc (p % w) (p / w)) b
  | 0, b => by simp
  | h + 1, b => by
    rw [List.range_succ, List.foldl_append, List.foldl_cons, List.foldl_nil,
      foldl_grid g w h b, Nat.mul_succ, List.range_add, List.foldl_append, List.foldl_map]
    rcases Nat.eq_zero_or_pos w with hw | hw
    · subst hw
      simp
    · apply List.foldl_ext
      intro acc x hx
      have hxw : x < w := List.mem_range.1 hx
      have hmod : (w * h + x) % w = x := by
        rw [Nat.add_comm, Nat.add_mul_mod_self_left, Nat.mod_eq_of_lt hxw]
      have hdiv : (w * h + x) / w = h := by
        rw [Nat.mul_add_div hw, Nat.div_eq_of_lt hxw, Nat.add_zero]
      rw [hmod, hdiv]

lemma ditherStep_eq_rasterStep (w h : ℕ) (buf : List ℕ) (x y : ℕ) :
    ditherStep w h buf x y = rasterStep w h buf x y := by
  unfold ditherStep rasterStep addErrPixel pixelIndex
  by_cases h1 : x + 1 < w
  · by_cases h2 : y + 1 < h
    · by_cases h3 : 0 < x
      · simp [h1, h2, h3]
      · simp [h1, h2, h3]
    · simp [h1, h2]
  · by_cases h2 : y + 1 < h
    · by_cases h3 : 0 < x
      · simp [h1, h2, h3]
      · simp [h1, h2, h3]
    · simp [h1, h2]

/-- C1: the Floyd–Steinberg pass of `ditherImage` (the source's nested
`for y { for x }` loops mutating the working buffer in place) equals the
claim's description: one raster-order (left-to-right, top-to-bottom) pass
over all pixels that grayscales each pixel as the unweighted mean of R,
G, B, binarizes at 128 (`< 128 ↦ 0`, otherwise 255, so exactly 128 is
white), and diffuses `error = oldValue - outputValue` with weights 7/16
right, 3/16 bottom-left, 5/16 bottom, 1/16 bottom-right, skipping
neighbors outside the grid. -/
theorem ditherImage_raster_order (px : List ℕ) (w h : ℕ) :
    ditherImage px w h = ditherRaster px w h := by
  have hgrid : ditherImage px w h
      = (List.range (w * h)).foldl (fun acc p => ditherStep w h acc (p % w) (p / w)) px :=
    foldl_grid (fun acc x y => ditherStep w h acc x y) w h px
  rw [hgrid]
  unfold ditherRaster
  apply List.foldl_ext
  intro acc p _
  exact ditherStep_eq_rasterStep w h acc (p % w) (p / w)

end ReceiptPrinter
